import Mathlib

/-!
Verification of the hexrd specification against the source code.

Shallow embedding of six hexrd modules:
* `hexrd/imageseries/stats.py` (chunked per-pixel statistics),
* `hexrd/fitting/calibration/structureless.py` (structureless calibrator),
* `hexrd/config/material.py` (material configuration facade),
* `hexrd/instrument/cylindrical_detector.py` (cylindrical detector geometry),
* `hexrd/ipfcolor/sphere_sector.py` (IPF color mapping).

Machine integers and Python ints are modelled as `Nat`/`Int`, numpy floating
point arrays as lists of real numbers (exact real arithmetic), fallible code
as `Option`/`Except`.  Definitions are translated line by line from the
source; each carries a doc comment naming the Python symbol it embeds.
-/

namespace Hexrd

/-! ## Image-series statistics: hexrd/imageseries/stats.py

A frame (image) is a list of rows, each row a list of integer pixel values.
A series is a list of frames.  `STATS_BUFFER` (half of available physical
memory, a load-time constant) and the dtype item size are passed as
parameters. -/

/-- A single frame: rows of integer pixel values. -/
abbrev Image := List (List ℤ)

/-- Embedding of `_nframes(ims, nframes)` (stats.py:104):
`np.min((mynf, nframes)) if nframes > 0 else mynf` where `mynf = len(ims)`. -/
def nframes (len nf : ℕ) : ℕ :=
  if 0 < nf then Nat.min len nf else len

/-- Embedding of `_chunk_ranges(nrows, nchunk, chunk)` (stats.py:120):
start and end row for the current chunk, using Python floor division
(`csize = nrows//nchunk`) and remainder (`rem = nrows % nchunk`). -/
def chunk_ranges (nrows nchunk chunk : ℕ) : ℕ × ℕ :=
  let csize := nrows / nchunk
  let rem := nrows % nchunk
  if chunk < rem then
    (chunk * (csize + 1), chunk * (csize + 1) + csize + 1)
  else
    (chunk * csize + rem, chunk * csize + rem + csize)

/-- Per-pixel maximum of two frames (`np.maximum` on 2-d arrays). -/
def pixmax (a b : Image) : Image :=
  List.zipWith (List.zipWith Max.max) a b

/-- `np.max(a, axis=0)` for a nonempty stack `a` of frames: the per-pixel
maximum over the stacked frames. -/
def maxStack : List Image → Image
  | [] => []
  | f :: fs => fs.foldl pixmax f

/-- Restriction of a frame to the row band `[r0, r1)`: the effect of the
`ProcessedImageSeries` rectangle `[[r0, r1], [0, ncols]]` on one frame. -/
def sliceRows (r0 r1 : ℕ) (img : Image) : Image :=
  (img.drop r0).take (r1 - r0)

/-- `img[r0:r1, :] = band`: replace the row band `[r0, r1)` of `img`. -/
def setRows (img band : Image) (r0 r1 : ℕ) : Image :=
  img.take r0 ++ band ++ img.drop r1

/-- Embedding of `_chunk_op(op, ims, nf, chunk)` (stats.py:139) specialized to
`op = np.max`.  The source line 146 `nf = len(ims)` overwrites the `nf`
argument with the full series length before any frame is read, so the
binder `nf` is deliberately shadowed here exactly as in the source. -/
def chunk_op (ims : List Image) (nf : ℕ) (chunk : ℕ × ℕ × Image) : Image :=
  let nf := ims.length
  let nrows := (ims.headD []).length
  let i := chunk.1
  let nchunk := chunk.2.1
  let img := chunk.2.2
  let r := chunk_ranges nrows nchunk i
  let pims := ims.map (sliceRows r.1 r.2)
  let a := pims.take nf
  setRows img (maxStack a) r.1 r.2

/-- Embedding of `max(ims, chunk=None, nframes=0)` (stats.py:24), the
chunked per-pixel maximum.  `buffer` stands for the load-time constant
`STATS_BUFFER` and `itemsize` for `ims.dtype.itemsize`.  Without an explicit
chunk it auto-computes `nchunks = 1 + mem // STATS_BUFFER` and folds
`_chunk_op` over every chunk index starting from a zero image; with an
explicit `(i, n, img)` descriptor it runs `_chunk_op` once. -/
def statsMax (buffer itemsize : ℕ) (ims : List Image) (nf : ℕ)
    (chunk : Option (ℕ × ℕ × Image)) : Image :=
  let n := nframes ims.length nf
  match chunk with
  | none =>
    let nr := (ims.headD []).length
    let nc := ((ims.headD []).headD []).length
    let mem := n * nr * nc * itemsize
    let nchunks := 1 + mem / buffer
    (List.range nchunks).foldl
      (fun img i => chunk_op ims n (i, nchunks, img))
      (List.replicate nr (List.replicate nc 0))
  | some c => chunk_op ims n c

/-- Embedding of `_row_ranges(n, m)` (stats.py:160), a generator yielding row
ranges of `m` rows (or the remainder) until the rows are exhausted.  The
Python loop advances `i` by `m` each step; it is embedded with explicit fuel
(the loop terminates within `n` iterations whenever `1 ≤ m`, which the C9
theorem exploits with fuel `n`). -/
def row_ranges_aux (m : ℕ) : ℕ → ℕ → ℕ → List (ℕ × ℕ)
  | 0, _, _ => []
  | fuel + 1, n, i =>
    if i < n then
      (if i + m ≤ n then (i, i + m) else (i, n)) :: row_ranges_aux m fuel n (i + m)
    else []

/-- `_row_ranges(n, m)` with fuel `n`. -/
def row_ranges (n m : ℕ) : List (ℕ × ℕ) :=
  row_ranges_aux m n n 0

/-- Embedding of `_rows_in_buffer(ncol, rsize)` (stats.py:172):
`int(np.ceil(STATS_BUFFER/rsize))`, with the memory budget `STATS_BUFFER`
passed as `buffer`.  The first Python argument is ignored by the source body
and therefore does not appear here. -/
def rows_in_buffer (buffer rsize : ℕ) : ℕ :=
  (Int.ceil ((buffer : ℚ) / (rsize : ℚ))).toNat

/-! ## Structureless calibrator: hexrd/fitting/calibration/structureless.py -/

/-- The `valid_settings` list of the `engineering_constraints` setter
(structureless.py:152-156): Python `None`, the string `'None'`, and the
string `'TARDIS'`.  Python `None` is modelled as `none`, strings as
`some`. -/
def valid_settings : List (Option String) := [none, some "None", some "TARDIS"]

/-- The error actually raised on an invalid constraint tag: building the
message evaluates `', '.join(map(valid_settings, str))` (structureless.py:158)
whose arguments are swapped — `map` receives the list where the callable
belongs — so Python raises `TypeError` before the intended `Exception`
carrying the list of valid options is ever constructed. -/
inductive PyError
  | typeError
deriving DecidableEq

/-- The fields of `StructurelessCalibrator` read and written by the
`instr`, `data` and `engineering_constraints` setters.  `instr` and `data`
are opaque handles.  The lmfit parameter collection built by
`make_lmfit_params` (external factories `create_instr_params`,
`create_tth_parameters`, `add_engineering_constraints`) is abstracted to
its object identity `paramsId`: the source builds a brand-new
`lmfit.Parameters()` on every call, so a rebuild is observable as a fresh
identity and previously fitted values are lost with the old collection. -/
structure Calibrator where
  instr : ℕ
  data : ℕ
  engineering_constraints : Option String
  paramsId : ℕ
deriving DecidableEq

/-- Embedding of `make_lmfit_params` (structureless.py:50): discards the
current parameter collection and builds a fresh one from the current
instrument, dataset and constraint tag. -/
def make_lmfit_params (s : Calibrator) : Calibrator :=
  { s with paramsId := s.paramsId + 1 }

/-- Embedding of the `instr` setter (structureless.py:172): stores the new
instrument and rebuilds the parameters unconditionally. -/
def set_instr (s : Calibrator) (ins : ℕ) : Calibrator :=
  make_lmfit_params { s with instr := ins }

/-- Embedding of the `data` setter (structureless.py:181): stores the new
dataset and rebuilds the parameters unconditionally. -/
def set_data (s : Calibrator) (dat : ℕ) : Calibrator :=
  make_lmfit_params { s with data := dat }

/-- Embedding of the `engineering_constraints` setter
(structureless.py:147-166): a value equal to the currently held one returns
immediately (no validation, no rebuild); otherwise a value in
`valid_settings` is stored and the parameters rebuilt; any other value
raises — the `TypeError` documented at `PyError.typeError`. -/
def set_engineering_constraints (s : Calibrator) (v : Option String) :
    Except PyError Calibrator :=
  if v = s.engineering_constraints then .ok s
  else if v ∈ valid_settings then
    .ok (make_lmfit_params { s with engineering_constraints := v })
  else .error .typeError

/-! ## Material configuration facade: hexrd/config/material.py -/

/-- Configuration and file-system state read by
`MaterialConfig.definitions` (material.py:19): the configured
`material:definitions` value, the configured working directory, and the set
of paths for which `os.path.exists` is true. -/
structure MaterialConfigEnv where
  definitionsValue : String
  workingDir : String
  existingPaths : List String

/-- POSIX `os.path.isabs`: a path is absolute when it starts with a
slash (stated on the character list so that it evaluates by `rfl`). -/
def isabs (p : String) : Bool := p.toList.take 1 == ['/']

/-- POSIX `os.path.join(a, b)` restricted to the shapes reachable here: an
absolute second component replaces the first, otherwise the components are
joined with a single separating slash. -/
def path_join (a b : String) : String :=
  if isabs b then b
  else if a.toList.getLast? == some '/' || a.toList.isEmpty then a ++ b
  else a ++ "/" ++ b

/-- Embedding of the `definitions` property (material.py:19-28): the
configured value is joined against the working directory when it is not
absolute, and returned when the result exists; otherwise `IOError` is
raised.  The raised message is the literal source string below: the source
applies no `%` operator to the format (`% temp` is missing after the string
literal), so the `%s` placeholder is never substituted with the configured
value. -/
def definitions (env : MaterialConfigEnv) : Except String String :=
  let temp := env.definitionsValue
  let temp2 := if isabs temp then temp else path_join env.workingDir temp
  if env.existingPaths.contains temp2 then Except.ok temp2
  else Except.error "\"material:definitions\": \"%s\" does not exist"

noncomputable section

/-- `np.degrees(x)`: radians to degrees. -/
def degrees (x : ℝ) : ℝ := x * (180 / Real.pi)

/-- Data of one ring as read by `calc_residual` (structureless.py:62): for
each detector name, `meas det` is the two-theta column (radians) of
`meas_angles` — the angles computed by `panel.cart_to_angles` from the
measured pixel coordinates — with `none` for detectors absent from the ring
(the `dict.fromkeys` default), and `corr det` is the per-detector
`tth_correction` column (radians), `none` when no `tth_distortion` is
configured.  Both dictionaries are built from the same `self.data` ring
list, which is why one record carries both (the source `zip` of
`meas_angles[src]` and `tth_correction[src]` pairs them index by index). -/
structure RingMeas where
  meas : String → Option (List ℝ)
  corr : String → Option (List ℝ)

/-- The state read by `calc_residual` after the trial parameters have been
pushed into the instrument: the instrument detector iteration order
(`self.instr.detectors.items()`), the dataset as an association list from
X-ray source name to ring list (Python dict iteration order of
`self.data`), the per-source parameter prefixes
(`tth_parameter_prefixes(self.instr)`) and the lmfit parameter values keyed
by name (`params[name].value`). -/
structure ResidualInput where
  detectors : List String
  sources : List (String × List RingMeas)
  prefixes : String → String
  params : String → ℝ

/-- The arrays appended to `residual` by the triple loop of `calc_residual`
(structureless.py:73-90): outer over X-ray sources, `enumerate` over the
zipped ring lists, inner over instrument detectors.  Combinations whose
measured entry is `None` or empty are skipped (`continue`).  Each appended
array is `np.degrees(tth) - params[prefix + str(ii)].value`, with
`np.degrees(corr)` subtracted element-wise when a correction is present. -/
def residual_arrays (inp : ResidualInput) : List (List ℝ) :=
  inp.sources.flatMap fun src =>
    src.2.enum.flatMap fun ir =>
      inp.detectors.flatMap fun det =>
        match ir.2.meas det with
        | none => []
        | some tth =>
          if tth.isEmpty then []
          else
            let tth_rng := inp.params (inp.prefixes src.1 ++ toString ir.1)
            let delta_tth := tth.map fun t => degrees t - tth_rng
            match ir.2.corr det with
            | none => [delta_tth]
            | some corr => [List.zipWith (fun dt c => dt - degrees c) delta_tth corr]

/-- Embedding of `calc_residual` (structureless.py:62): the final
`np.hstack(residual)` concatenates the appended arrays but raises
`ValueError` when `residual` is the empty list (no combination contributed);
the raise is modelled as `none`. -/
def calc_residual (inp : ResidualInput) : Option (List ℝ) :=
  if (residual_arrays inp).isEmpty then none
  else some (residual_arrays inp).flatten

/-- The C2 residual written from the specification text: iterate
X-ray source, then ring index, then detector; every combination with
nonempty measured data contributes entries "measured two-theta in degrees
minus the fitted two-theta parameter for that ring minus the configured
correction in degrees when present"; combinations with absent or empty data
contribute nothing. -/
def residual_spec (inp : ResidualInput) : List ℝ :=
  inp.sources.flatMap fun src =>
    src.2.enum.flatMap fun ir =>
      inp.detectors.flatMap fun det =>
        match ir.2.meas det with
        | none => []
        | some tth =>
          if tth.isEmpty then []
          else
            match ir.2.corr det with
            | none => tth.map fun t =>
                degrees t - inp.params (inp.prefixes src.1 ++ toString ir.1)
            | some corr => List.zipWith
                (fun t c =>
                  degrees t - inp.params (inp.prefixes src.1 ++ toString ir.1)
                    - degrees c)
                tth corr

/-- A dataset with one X-ray source, one ring and one detector carrying one
measured two-theta value of 1 radian and no correction. -/
def residual_input_one : ResidualInput where
  detectors := ["d"]
  sources := [("s", [⟨fun _ => some [1], fun _ => none⟩])]
  prefixes := fun _ => "p"
  params := fun _ => 0

/-- A dataset whose only (source, ring, detector) combination has measured
data present but empty: every combination is skipped and `np.hstack`
receives the empty list. -/
def residual_input_empty : ResidualInput where
  detectors := ["d"]
  sources := [("s", [⟨fun _ => some [], fun _ => none⟩])]
  prefixes := fun _ => "p"
  params := fun _ => 0

/-! ## IPF color mapping: hexrd/ipfcolor/sphere_sector.py -/

/-- A 3-component real vector: one row of an N x 3 numpy direction array. -/
abbrev V3 := ℝ × ℝ × ℝ

/-- `np.dot` of 3-vectors. -/
def dot3 (a b : V3) : ℝ := a.1 * b.1 + a.2.1 * b.2.1 + a.2.2 * b.2.2

/-- `np.cross` of 3-vectors. -/
def cross3 (a b : V3) : V3 :=
  (a.2.1 * b.2.2 - a.2.2 * b.2.1,
   a.2.2 * b.1 - a.1 * b.2.2,
   a.1 * b.2.1 - a.2.1 * b.1)

/-- `np.linalg.norm` of a 3-vector. -/
def norm3 (a : V3) : ℝ := Real.sqrt (dot3 a a)

/-- Scalar multiple of a 3-vector. -/
def smul3 (c : ℝ) (a : V3) : V3 := (c * a.1, c * a.2.1, c * a.2.2)

/-- `v / np.linalg.norm(v)`. -/
def normalize3 (a : V3) : V3 := smul3 (norm3 a)⁻¹ a

/-- `constants.sqrt_epsf = np.sqrt(np.finfo('float').eps)`: the square root
of the double-precision machine epsilon `2 ** (-52)` (sphere_sector.py:32
binds it as the module constant `eps`). -/
def sqrt_epsf : ℝ := Real.sqrt ((2 : ℝ) ^ (-52 : ℤ))

/-- One geometry context of a `sector` (sphere_sector.py:277): the triangle
count, the vertex list (the columns of the `pg2vertex` vertex array) and the
derived barycenter.  The `laueswitch` argument of the coloring methods only
selects which of the two stored contexts (point group or Laue group) is
read, so a single context is embedded. -/
structure Sector where
  ntriangle : ℕ
  vertices : List V3
  barycenter : V3

/-- `np.mean(vertices, axis=1)`: the mean of the vertex columns. -/
def mean3 (l : List V3) : V3 :=
  smul3 ((l.length : ℝ))⁻¹
    (l.foldr (fun a b => (a.1 + b.1, a.2.1 + b.2.1, a.2.2 + b.2.2)) (0, 0, 0))

/-- `sector.__init__` (sphere_sector.py:300-311) for one geometry context:
a nonzero triangle count stores the unit-normalized vertex mean as the
barycenter, a zero count stores `(0, 0, 1)`. -/
def mkSector (n : ℕ) (verts : List V3) : Sector :=
  if n ≠ 0 then ⟨n, verts, normalize3 (mean3 verts)⟩
  else ⟨n, verts, (0, 0, 1)⟩

/-- One row of `check_norm` (sphere_sector.py:316): a row whose norm
exceeds `eps = sqrt_epsf` is replaced in place by its unit-normalized
value; a row at or below the threshold is left untouched. -/
def check_norm_row (d : V3) : V3 :=
  if norm3 d > sqrt_epsf then normalize3 d else d

/-- `check_norm(dir3)`: the in-place row normalization applied to the whole
batch; the returned list is the array state after the call. -/
def check_norm (dirs : List V3) : List V3 := dirs.map check_norm_row

/-- `np.arctan2(y, x)`, embedded as the argument of the complex number
`x + y*i` (both have range `(-pi, pi]` and send `(0, 0)` to `0`). -/
def arctan2 (y x : ℝ) : ℝ := Complex.arg ⟨x, y⟩

/-- Azimuth of one direction row in `calc_azi_rho` (sphere_sector.py:374-387)
for a nonzero triangle count: `n2` is the cross product of barycenter and
direction; a row with `norm(n2) > eps` uses the dot product of the
normalized plane normals, any other row keeps the `dp = 0` default; `rho`
is `arccos(dp)`, plus `pi` when `dp` is negative.  A degenerate row
therefore gets `rho = arccos(0) = pi/2`. -/
def azi_rho_row (b n1 d : V3) : ℝ :=
  let n2 := cross3 b d
  let dp := if norm3 n2 > sqrt_epsf then dot3 n1 (normalize3 n2) else 0
  if dp < 0 then Real.arccos dp + Real.pi else Real.arccos dp

/-- Embedding of `calc_azi_rho(dir3, laueswitch)` (sphere_sector.py:338):
normalizes the batch in place, then computes the per-row azimuth; the
reference direction `rx` is the first vertex for a nonzero triangle count,
while the triclinic path returns `arctan2(y, x) + pi` per row.  The first
component of the result is the array state after the call. -/
def calc_azi_rho (s : Sector) (dirs : List V3) : List V3 × List ℝ :=
  let dirs2 := check_norm dirs
  if s.ntriangle ≠ 0 then
    let rx := s.vertices.headD (0, 0, 0)
    let n1 := normalize3 (cross3 s.barycenter rx)
    (dirs2, dirs2.map (azi_rho_row s.barycenter n1))
  else
    (dirs2, dirs2.map fun d => arctan2 d.2.1 d.1 + Real.pi)

/-- `pol.max()`: the maximum entry of a nonempty list. -/
def list_max : List ℝ → ℝ
  | [] => 0
  | x :: xs => xs.foldl Max.max x

/-- Embedding of `calc_pol_theta(dir3, laueswitch)` (sphere_sector.py:396):
normalizes the batch in place, takes `arccos` of the dot products with the
barycenter, then rescales by `np.pi/pol.max()` — a batch-relative
normalization.  When the batch maximum is zero every entry of
`pol*np.pi/pol.max()` is the numpy NaN `0.0*pi/0.0` (and `.max()` of an
empty array raises); both NaN outcomes are modelled as `none`.  The first
component of the result is the array state after the call. -/
def calc_pol_theta (s : Sector) (dirs : List V3) : List V3 × Option (List ℝ) :=
  let dirs2 := check_norm dirs
  let pol := dirs2.map fun d => Real.arccos (dot3 s.barycenter d)
  if pol.isEmpty then (dirs2, none)
  else if list_max pol = 0 then (dirs2, none)
  else (dirs2, some (pol.map fun p => p * Real.pi / list_max pol))

/-- Embedding of `calc_hue` (sphere_sector.py:438): `H = rho/2/pi` with
`rho` from `calc_azi_rho`; the first component is the array state. -/
def calc_hue (s : Sector) (dirs : List V3) : List V3 × List ℝ :=
  let r := calc_azi_rho s dirs
  (r.1, r.2.map fun rho => rho / 2 / Real.pi)

/-- Embedding of `calc_lightness` (sphere_sector.py:467):
`L = 1 - (0.25*(theta/pi) + 0.75*sin(theta/2)**2)` with `theta` from
`calc_pol_theta`; `none` propagates its NaN state.  The first component is
the array state. -/
def calc_lightness (s : Sector) (dirs : List V3) :
    List V3 × Option (List ℝ) :=
  let r := calc_pol_theta s dirs
  (r.1, r.2.map fun l => l.map fun theta =>
    1 - (0.25 * (theta / Real.pi) + 0.75 * Real.sin (theta / 2) ^ 2))

/-- Embedding of `calc_saturation` (sphere_sector.py:452):
`S = 1 - 2*0.25*|L - 0.5|`. -/
def calc_saturation (L : ℝ) : ℝ := 1 - 2 * 0.25 * |L - 0.5|

/-- Embedding of `get_color` (sphere_sector.py:488): column 0 the hue,
column 2 the lightness, column 1 the saturation of the lightness.  The
array state threads through `calc_hue` and then `calc_lightness`, exactly
as the two in-place `check_norm` passes act on the caller's array; the HSL
rows are `none` when the lightness column is NaN (see `calc_pol_theta`). -/
def get_color (s : Sector) (dirs : List V3) :
    List V3 × Option (List (ℝ × ℝ × ℝ)) :=
  let h := calc_hue s dirs
  let l := calc_lightness s h.1
  (l.1, l.2.map fun L => (h.2.zip L).map fun hl =>
    (hl.1, calc_saturation hl.2, hl.2))

/-- The point-group context of `sector('c2v', ...)`: `pg2vertex['c2v']`
has one triangle with vertex columns `(0,0,1)`, `(1,0,0)`, `(0,1,0)`
(sphere_sector.py:98-102). -/
def sector_c2v : Sector :=
  mkSector 1 [((0 : ℝ), (0 : ℝ), (1 : ℝ)), (1, 0, 0), (0, 1, 0)]

/-! ## Cylindrical detector geometry: hexrd/instrument/cylindrical_detector.py -/

/-- The generic `Detector` configuration fields read by the cylindrical
geometry properties: rows, cols, pixel pitches (mm) and the translation
vector `tvec`. -/
structure CylindricalDetector where
  rows : ℕ
  cols : ℕ
  pixel_size_row : ℝ
  pixel_size_col : ℝ
  tvec : V3

/-- Embedding of `CylindricalDetector.radius` (cylindrical_detector.py:120):
`np.linalg.norm(self.tvec)`. -/
def radius (d : CylindricalDetector) : ℝ := norm3 d.tvec

/-- Embedding of `CylindricalDetector.physical_size`
(cylindrical_detector.py:125): `[rows*pixel_size_row, cols*pixel_size_col]`. -/
def physical_size (d : CylindricalDetector) : ℝ × ℝ :=
  ((d.rows : ℝ) * d.pixel_size_row, (d.cols : ℝ) * d.pixel_size_col)

/-- Embedding of `CylindricalDetector.angle_extent`
(cylindrical_detector.py:151): `sz = self.physical_size[1]`, the half-angle
`sz / self.radius / 2.0`. -/
def angle_extent (d : CylindricalDetector) : ℝ :=
  (physical_size d).2 / radius d / 2

/-- A cylindrical detector with 2 rows, 3 cols, unit pixel pitches and unit
translation: its physical size is (2, 3), so height and width differ. -/
def cyl_example : CylindricalDetector :=
  ⟨2, 3, 1, 1, ((0 : ℝ), (0 : ℝ), (1 : ℝ))⟩

end

/-- C1 (code_bug): `stats.max` is claimed to reduce over exactly the first
`N = min(k, len)` frames when `0 < k < len`.  The code does not: line 146 of
stats.py (`nf = len(ims)` inside `_chunk_op`) discards the frame count, in
contradiction with `_chunk_op`'s own docstring ("nf -- total number of frames
to use").  At the failing input below (a two-frame series of 1x1 frames with
values 5 then 7, frame count 1) the code returns the maximum over all frames,
`[[7]]`, where the claim requires `[[5]]` (the maximum over the first frame
only). -/
theorem c1_max_frame_count_ignored :
    statsMax 100 1 [[[5]], [[7]]] 1 none = [[7]] ∧
      statsMax 100 1 [[[5]], [[7]]] 1 none ≠ [[5]] := by
  constructor
  · rfl
  · decide

/-- Closed form for the start row of `_chunk_ranges`. -/
lemma chunk_ranges_fst (R C i : ℕ) :
    (chunk_ranges R C i).1 = i * (R / C) + min i (R % C) := by
  unfold chunk_ranges
  by_cases h : i < R % C
  · rw [if_pos h]
    have hmin : min i (R % C) = i := by omega
    rw [hmin]
    ring
  · rw [if_neg h]
    have hmin : min i (R % C) = R % C := by omega
    rw [hmin]

/-- Closed form for the end row of `_chunk_ranges`. -/
lemma chunk_ranges_snd (R C i : ℕ) :
    (chunk_ranges R C i).2 = (i + 1) * (R / C) + min (i + 1) (R % C) := by
  unfold chunk_ranges
  have hm : (i + 1) * (R / C) = i * (R / C) + R / C := by ring
  rw [hm]
  by_cases h : i < R % C
  · rw [if_pos h]
    have hmin : min (i + 1) (R % C) = i + 1 := by omega
    have h2 : i * (R / C + 1) = i * (R / C) + i := by ring
    rw [hmin, h2]
    omega
  · rw [if_neg h]
    have hmin : min (i + 1) (R % C) = R % C := by omega
    rw [hmin]
    omega

/-- Consecutive chunks are adjacent: each chunk ends where the next starts. -/
lemma chunk_ranges_adjacent (R C i : ℕ) :
    (chunk_ranges R C i).2 = (chunk_ranges R C (i + 1)).1 := by
  rw [chunk_ranges_snd, chunk_ranges_fst]

/-- The start rows of `_chunk_ranges` are monotone in the chunk index. -/
lemma chunk_ranges_fst_mono (R C : ℕ) {i j : ℕ} (h : i ≤ j) :
    (chunk_ranges R C i).1 ≤ (chunk_ranges R C j).1 := by
  rw [chunk_ranges_fst, chunk_ranges_fst]
  exact Nat.add_le_add (Nat.mul_le_mul_right _ h) (min_le_min h le_rfl)

/-- Chunk 0 starts at row 0. -/
lemma chunk_ranges_fst_zero (R C : ℕ) : (chunk_ranges R C 0).1 = 0 := by
  simp [chunk_ranges_fst]

/-- The virtual chunk `C` starts at row `R`: the `C` chunks exhaust the rows. -/
lemma chunk_ranges_fst_total (R C : ℕ) (hC : 0 < C) :
    (chunk_ranges R C C).1 = R := by
  rw [chunk_ranges_fst, min_eq_right (Nat.mod_lt _ hC).le, Nat.div_add_mod]

/-- Every row lies in some chunk band. -/
lemma chunk_ranges_exists (R C : ℕ) (hC : 0 < C) {r : ℕ} (hr : r < R) :
    ∃ i, i < C ∧ (chunk_ranges R C i).1 ≤ r ∧ r < (chunk_ranges R C i).2 := by
  have hP0 : (chunk_ranges R C 0).1 ≤ r := by
    simp [chunk_ranges_fst_zero]
  have hPi := Nat.findGreatest_spec (P := fun j => (chunk_ranges R C j).1 ≤ r)
    (Nat.zero_le C) hP0
  have hle := Nat.findGreatest_le (P := fun j => (chunk_ranges R C j).1 ≤ r) C
  have hne : Nat.findGreatest (fun j => (chunk_ranges R C j).1 ≤ r) C ≠ C := by
    intro hEq
    rw [hEq, chunk_ranges_fst_total R C hC] at hPi
    omega
  have hlt := lt_of_le_of_ne hle hne
  refine ⟨Nat.findGreatest (fun j => (chunk_ranges R C j).1 ≤ r) C, hlt, hPi, ?_⟩
  have hnot := Nat.findGreatest_is_greatest
    (P := fun j => (chunk_ranges R C j).1 ≤ r) (n := C)
    (Nat.lt_succ_self _) (Nat.succ_le_of_lt hlt)
  rw [chunk_ranges_adjacent]
  exact Nat.lt_of_not_le hnot

/-- Only one chunk band contains a given row. -/
lemma chunk_ranges_unique (R C : ℕ) {r i j : ℕ}
    (hi : (chunk_ranges R C i).1 ≤ r ∧ r < (chunk_ranges R C i).2)
    (hj : (chunk_ranges R C j).1 ≤ r ∧ r < (chunk_ranges R C j).2) : i = j := by
  by_contra hne
  rcases Nat.lt_or_ge i j with hlt | hge
  · have h1 : (chunk_ranges R C (i + 1)).1 ≤ (chunk_ranges R C j).1 :=
      chunk_ranges_fst_mono R C hlt
    rw [← chunk_ranges_adjacent] at h1
    omega
  · have hlt : j < i := lt_of_le_of_ne hge (Ne.symm hne)
    have h1 : (chunk_ranges R C (j + 1)).1 ≤ (chunk_ranges R C i).1 :=
      chunk_ranges_fst_mono R C hlt
    rw [← chunk_ranges_adjacent] at h1
    omega

/-- C8 (confirmed): for every total row count `R >= 1` and chunk count
`C >= 1`, `_chunk_ranges` gives band `i` exactly `R//C` rows plus one extra
row for each `i < R % C`, with start index `i*(size+1)` for `i < remainder`
and `i*size + remainder` otherwise, and the `C` bands partition the rows
`[0, R)`, each row lying in exactly one band. -/
theorem c8_chunk_ranges_partition (R C : ℕ) (hR : 1 ≤ R) (hC : 1 ≤ C) :
    (∀ i, i < C →
      (chunk_ranges R C i).1 =
          (if i < R % C then i * (R / C + 1) else i * (R / C) + R % C) ∧
      (chunk_ranges R C i).2 - (chunk_ranges R C i).1 =
          R / C + (if i < R % C then 1 else 0)) ∧
    (∀ r, r < R →
      ∃! i, i < C ∧ (chunk_ranges R C i).1 ≤ r ∧ r < (chunk_ranges R C i).2) := by
  constructor
  · intro i _
    constructor
    · rw [chunk_ranges_fst]
      by_cases h : i < R % C
      · simp only [if_pos h, min_eq_left h.le]
        ring
      · simp only [if_neg h, min_eq_right (Nat.le_of_not_lt h)]
    · rw [chunk_ranges_fst, chunk_ranges_snd]
      have hm : (i + 1) * (R / C) = i * (R / C) + R / C := by ring
      rw [hm]
      by_cases h : i < R % C
      · rw [if_pos h]
        have h1 : min i (R % C) = i := by omega
        have h2 : min (i + 1) (R % C) = i + 1 := by omega
        rw [h1, h2]
        generalize R / C = q
        omega
      · rw [if_neg h]
        have h1 : min i (R % C) = R % C := by omega
        have h2 : min (i + 1) (R % C) = R % C := by omega
        rw [h1, h2]
        generalize R / C = q
        generalize R % C = m
        omega
  · intro r hr
    obtain ⟨i, hiC, hi1, hi2⟩ := chunk_ranges_exists R C hC hr
    exact ⟨i, ⟨hiC, hi1, hi2⟩, fun j hj =>
      (chunk_ranges_unique R C ⟨hj.2.1, hj.2.2⟩ ⟨hi1, hi2⟩)⟩

/-- C8 witness: the claim instantiated at `R = 10`, `C = 3`, together with the
concrete band values `(0,4)`, `(4,7)`, `(7,10)` stated by the claim. -/
theorem c8_chunk_ranges_partition_witness :
    (chunk_ranges 10 3 0 = (0, 4) ∧ chunk_ranges 10 3 1 = (4, 7) ∧
      chunk_ranges 10 3 2 = (7, 10)) ∧
    ((∀ i, i < 3 →
      (chunk_ranges 10 3 i).1 =
          (if i < 10 % 3 then i * (10 / 3 + 1) else i * (10 / 3) + 10 % 3) ∧
      (chunk_ranges 10 3 i).2 - (chunk_ranges 10 3 i).1 =
          10 / 3 + (if i < 10 % 3 then 1 else 0)) ∧
    (∀ r, r < 10 →
      ∃! i, i < 3 ∧ (chunk_ranges 10 3 i).1 ≤ r ∧ r < (chunk_ranges 10 3 i).2)) :=
  ⟨⟨by decide, by decide, by decide⟩,
    c8_chunk_ranges_partition 10 3 (by decide) (by decide)⟩

/-- With positive band size, the fueled `_row_ranges` loop covers every row
provided the fuel bounds the iteration count. -/
lemma row_ranges_aux_cover (m : ℕ) :
    ∀ fuel i n r, i ≤ r → r < n → n ≤ i + fuel * m →
      ∃ p ∈ row_ranges_aux m fuel n i, p.1 ≤ r ∧ r < p.2 := by
  intro fuel
  induction fuel with
  | zero =>
    intro i n r h1 h2 h3
    simp only [Nat.zero_mul] at h3
    omega
  | succ fuel ih =>
    intro i n r h1 h2 h3
    have hin : i < n := lt_of_le_of_lt h1 h2
    rw [row_ranges_aux, if_pos hin]
    by_cases hr : r < i + m
    · refine ⟨if i + m ≤ n then (i, i + m) else (i, n),
        List.mem_cons_self _ _, ?_⟩
      by_cases hn : i + m ≤ n
      · rw [if_pos hn]
        exact ⟨h1, hr⟩
      · rw [if_neg hn]
        exact ⟨h1, h2⟩
    · have hsm : (fuel + 1) * m = fuel * m + m := Nat.succ_mul fuel m
      obtain ⟨p, hp, hps⟩ := ih (i + m) n r (by omega) h2 (by omega)
      exact ⟨p, List.mem_cons_of_mem _ hp, hps⟩

/-- The fueled `_row_ranges` loop yields at most `fuel` bands. -/
lemma row_ranges_aux_length (m : ℕ) :
    ∀ fuel n i, (row_ranges_aux m fuel n i).length ≤ fuel := by
  intro fuel
  induction fuel with
  | zero => intro n i; simp [row_ranges_aux]
  | succ fuel ih =>
    intro n i
    rw [row_ranges_aux]
    split
    · simpa using ih n (i + m)
    · simp

/-- C9 (confirmed): for every positive memory budget and positive per-row
byte size (including a per-row size exceeding the budget), the
`_rows_in_buffer` value is at least 1, and the `_row_ranges` generator
driving `percentile` with that band size terminates after at most `n` bands
and visits every row. -/
theorem c9_rows_in_buffer_progress (buffer rsize : ℕ)
    (hb : 1 ≤ buffer) (hr : 1 ≤ rsize) :
    1 ≤ rows_in_buffer buffer rsize ∧
    (∀ n, (row_ranges n (rows_in_buffer buffer rsize)).length ≤ n) ∧
    (∀ n r, r < n →
      ∃ p ∈ row_ranges n (rows_in_buffer buffer rsize), p.1 ≤ r ∧ r < p.2) := by
  have hm : 1 ≤ rows_in_buffer buffer rsize := by
    have hpos : (0 : ℚ) < (buffer : ℚ) / (rsize : ℚ) :=
      div_pos (by exact_mod_cast hb) (by exact_mod_cast hr)
    have hceil : 0 < Int.ceil ((buffer : ℚ) / (rsize : ℚ)) := Int.ceil_pos.mpr hpos
    unfold rows_in_buffer
    omega
  refine ⟨hm, fun n => row_ranges_aux_length _ n n 0, fun n r hrn => ?_⟩
  have hle : n ≤ 0 + n * rows_in_buffer buffer rsize := by
    have := Nat.mul_le_mul_left n hm
    omega
  exact row_ranges_aux_cover _ n 0 n r (Nat.zero_le r) hrn hle

/-- C9 witness: the theorem instantiated at budget 1 byte and per-row size
1 byte (a per-row size that consumes the whole budget). -/
theorem c9_rows_in_buffer_progress_witness :
    1 ≤ rows_in_buffer 1 1 ∧
    (∀ n, (row_ranges n (rows_in_buffer 1 1)).length ≤ n) ∧
    (∀ n r, r < n →
      ∃ p ∈ row_ranges n (rows_in_buffer 1 1), p.1 ≤ r ∧ r < p.2) :=
  c9_rows_in_buffer_progress 1 1 (le_refl 1) (le_refl 1)

/-- C3 counterexample: assigning the string `'None'` — a value other than
absent or `'TARDIS'` — to the engineering-constraint tag of a calibrator
currently holding the absent tag succeeds (storing it and rebuilding the
parameters), refuting "any value other than absent or TARDIS always fails
with an InvalidInput error". -/
theorem c3_none_string_accepted :
    set_engineering_constraints ⟨0, 0, none, 0⟩ (some "None") =
      Except.ok ⟨0, 0, some "None", 1⟩ := rfl

/-- C3 (corrected): the `engineering_constraints` setter raises exactly when
the assigned value both differs from the currently held tag and is outside
`valid_settings = [None, 'None', 'TARDIS']`; the raised error is the
`TypeError` produced by the mis-joined options list, not an InvalidInput
message listing the two options; assigning the currently held value is a
silent no-op, and a differing valid value is stored with the parameter
collection rebuilt. -/
theorem c3_engineering_constraints_validation (s : Calibrator)
    (v : Option String) :
    (set_engineering_constraints s v = Except.error PyError.typeError ↔
      v ≠ s.engineering_constraints ∧ v ∉ valid_settings) ∧
    set_engineering_constraints s s.engineering_constraints = Except.ok s ∧
    (set_engineering_constraints s v =
        Except.ok (make_lmfit_params { s with engineering_constraints := v }) ↔
      v ≠ s.engineering_constraints ∧ v ∈ valid_settings) := by
  unfold set_engineering_constraints
  refine ⟨?_, by rw [if_pos rfl], ?_⟩
  · by_cases h1 : v = s.engineering_constraints
    · simp [h1]
    · by_cases h2 : v ∈ valid_settings <;> simp [h1, h2]
  · by_cases h1 : v = s.engineering_constraints
    · rw [if_pos h1]
      constructor
      · intro hEq
        have : s.paramsId = s.paramsId + 1 := congrArg Calibrator.paramsId
          (Except.ok.inj hEq)
        omega
      · rintro ⟨hne, _⟩
        exact absurd h1 hne
    · by_cases h2 : v ∈ valid_settings <;> simp [h1, h2]

/-- C4 counterexample: reassigning the engineering-constraint tag the value
it already holds (`'TARDIS'`, here with parameter identity 5) returns the
state unchanged — the parameter collection is not rebuilt — refuting "every
reassignment ... (including reassigning the value it already holds)
discards the current parameter collection and rebuilds it". -/
theorem c4_same_value_constraint_noop :
    set_engineering_constraints ⟨0, 0, some "TARDIS", 5⟩ (some "TARDIS") =
      Except.ok ⟨0, 0, some "TARDIS", 5⟩ := rfl

/-- C4 (corrected): reassigning `instr` or `data` always stores the new
value and rebuilds the parameter collection (a fresh identity, so fitted
values are lost), even when reassigning the held value; reassigning
`engineering_constraints` rebuilds exactly when the assigned value differs
from the held one — assigning the held value returns with the collection
untouched. -/
theorem c4_setters_rebuild (s : Calibrator) (i d : ℕ) (v : Option String) :
    (set_instr s i).paramsId ≠ s.paramsId ∧ (set_instr s i).instr = i ∧
    (set_data s d).paramsId ≠ s.paramsId ∧ (set_data s d).data = d ∧
    (∀ t, set_engineering_constraints s v = Except.ok t →
      (t.paramsId ≠ s.paramsId ↔ v ≠ s.engineering_constraints)) := by
  refine ⟨by simp [set_instr, make_lmfit_params], rfl,
    by simp [set_data, make_lmfit_params], rfl, ?_⟩
  intro t ht
  unfold set_engineering_constraints at ht
  by_cases h1 : v = s.engineering_constraints
  · rw [if_pos h1] at ht
    have := Except.ok.inj ht
    subst this
    simp [h1]
  · by_cases h2 : v ∈ valid_settings
    · rw [if_neg h1, if_pos h2] at ht
      have := Except.ok.inj ht
      subst this
      simp [make_lmfit_params, h1]
    · rw [if_neg h1, if_neg h2] at ht
      exact absurd ht (by simp)

/-- C4 witness: the rebuild-iff-different conjunct of `c4_setters_rebuild`
instantiated at a calibrator with absent tag and parameter identity 0, what
the setter concretely produces for `'TARDIS'`. -/
theorem c4_setters_rebuild_witness :
    (⟨0, 0, some "TARDIS", 1⟩ : Calibrator).paramsId ≠
        (⟨0, 0, none, 0⟩ : Calibrator).paramsId ↔
      some "TARDIS" ≠ (⟨0, 0, none, 0⟩ : Calibrator).engineering_constraints :=
  (c4_setters_rebuild ⟨0, 0, none, 0⟩ 0 0 (some "TARDIS")).2.2.2.2
    ⟨0, 0, some "TARDIS", 1⟩ rfl

/-- C5 (code_bug): `definitions` joins a relative configured path against
the working directory and returns an absolute configured path unchanged,
but on a non-existent resolved path the raised message is the literal
format string with an unsubstituted `%s` — the configured value
`missing.h5` is not named in the message, contradicting the claim (and the
evident intent of the `%s` placeholder). -/
theorem c5_definitions_error_message :
    definitions ⟨"missing.h5", "/w", []⟩ =
      Except.error "\"material:definitions\": \"%s\" does not exist" ∧
    ¬ ("missing.h5".toList <:+:
        ("\"material:definitions\": \"%s\" does not exist").toList) ∧
    definitions ⟨"/abs/mat.h5", "/w", ["/abs/mat.h5"]⟩ =
      Except.ok "/abs/mat.h5" ∧
    definitions ⟨"mat.h5", "/w", ["/w/mat.h5"]⟩ = Except.ok "/w/mat.h5" := by
  refine ⟨rfl, by decide, rfl, rfl⟩

/-- The dot product of a vector with itself is nonnegative. -/
lemma dot3_self_nonneg (a : V3) : 0 ≤ dot3 a a :=
  add_nonneg (add_nonneg (mul_self_nonneg _) (mul_self_nonneg _))
    (mul_self_nonneg _)

/-- The unit multiple of a vector is the vector. -/
lemma smul3_one (a : V3) : smul3 1 a = a := by
  simp [smul3]

/-- A vector with unit self dot product has unit norm. -/
lemma norm3_unit {a : V3} (h : dot3 a a = 1) : norm3 a = 1 := by
  rw [norm3, h, Real.sqrt_one]

/-- Norms are scaled by the absolute scalar. -/
lemma norm3_smul3 (c : ℝ) (a : V3) : norm3 (smul3 c a) = |c| * norm3 a := by
  have h : dot3 (smul3 c a) (smul3 c a) = c ^ 2 * dot3 a a := by
    simp only [dot3, smul3]
    ring
  rw [norm3, h, Real.sqrt_mul (sq_nonneg c), Real.sqrt_sq_eq_abs, norm3]

/-- A vector of positive norm normalizes to a unit-norm vector. -/
lemma norm3_normalize3 {a : V3} (h : norm3 a ≠ 0) :
    norm3 (normalize3 a) = 1 := by
  have hnn : (0 : ℝ) ≤ norm3 a := Real.sqrt_nonneg _
  rw [normalize3, norm3_smul3, abs_of_nonneg (inv_nonneg.mpr hnn),
    inv_mul_cancel₀ h]

/-- Unit self dot product normalizes to the vector itself. -/
lemma normalize3_of_unit {a : V3} (h : dot3 a a = 1) : normalize3 a = a := by
  rw [normalize3, norm3_unit h, inv_one, smul3_one]

/-- A row with unit self dot product is a fixed point of `check_norm`. -/
lemma check_norm_row_unit {a : V3} (h : dot3 a a = 1) :
    check_norm_row a = a := by
  unfold check_norm_row
  split
  · exact normalize3_of_unit h
  · rfl

/-- One `check_norm` pass leaves nothing for a second one: already
normalized rows have unit norm and degenerate rows are untouched again. -/
lemma check_norm_row_idem (d : V3) :
    check_norm_row (check_norm_row d) = check_norm_row d := by
  by_cases h : norm3 d > sqrt_epsf
  · have hne : norm3 d ≠ 0 :=
      ne_of_gt (lt_of_le_of_lt (Real.sqrt_nonneg _) h)
    have h1 : check_norm_row d = normalize3 d := if_pos h
    rw [h1]
    unfold check_norm_row
    split
    · rw [normalize3, norm3_normalize3 hne, inv_one, smul3_one]
    · rfl
  · have h1 : check_norm_row d = d := if_neg h
    rw [h1, h1]

/-- The in-place batch normalization is idempotent. -/
lemma check_norm_idem (dirs : List V3) :
    check_norm (check_norm dirs) = check_norm dirs := by
  unfold check_norm
  rw [List.map_map]
  exact List.map_congr_left fun a _ => check_norm_row_idem a

/-- The array state of `calc_azi_rho` is the normalized batch. -/
lemma calc_azi_rho_state (s : Sector) (dirs : List V3) :
    (calc_azi_rho s dirs).1 = check_norm dirs := by
  unfold calc_azi_rho
  split <;> rfl

/-- The array state of `calc_pol_theta` is the normalized batch. -/
lemma calc_pol_theta_state (s : Sector) (dirs : List V3) :
    (calc_pol_theta s dirs).1 = check_norm dirs := by
  simp only [calc_pol_theta]
  split
  · rfl
  · split <;> rfl

/-- The array state of `calc_hue` is the normalized batch. -/
lemma calc_hue_state (s : Sector) (dirs : List V3) :
    (calc_hue s dirs).1 = check_norm dirs := by
  simp only [calc_hue]
  exact calc_azi_rho_state s dirs

/-- The array state of `calc_lightness` is the normalized batch. -/
lemma calc_lightness_state (s : Sector) (dirs : List V3) :
    (calc_lightness s dirs).1 = check_norm dirs := by
  simp only [calc_lightness]
  exact calc_pol_theta_state s dirs

/-- C10 (confirmed): every coloring operation computing an azimuthal or
polar angle (`calc_azi_rho`, `calc_pol_theta`, `calc_hue`,
`calc_lightness`, `get_color`) leaves the caller's N x 3 array in the state
produced by the in-place normalization: every row whose norm exceeds
`sqrt(machine epsilon)` is replaced by its unit-normalized value and every
other row is left identical — `get_color` runs the normalization twice but
idempotence makes the final state the same single-pass map.  The sector's
stored fields are read-only throughout (the embedded operations take the
sector as an unmodified input). -/
theorem c10_coloring_normalizes_in_place (s : Sector) (dirs : List V3) :
    (calc_azi_rho s dirs).1 =
        dirs.map (fun d => if norm3 d > sqrt_epsf then normalize3 d else d) ∧
    (calc_pol_theta s dirs).1 =
        dirs.map (fun d => if norm3 d > sqrt_epsf then normalize3 d else d) ∧
    (calc_hue s dirs).1 =
        dirs.map (fun d => if norm3 d > sqrt_epsf then normalize3 d else d) ∧
    (calc_lightness s dirs).1 =
        dirs.map (fun d => if norm3 d > sqrt_epsf then normalize3 d else d) ∧
    (get_color s dirs).1 =
        dirs.map (fun d => if norm3 d > sqrt_epsf then normalize3 d else d) := by
  have hrow : (fun d => if norm3 d > sqrt_epsf then normalize3 d else d) =
      check_norm_row := by
    funext d
    rfl
  rw [hrow, ← check_norm]
  refine ⟨calc_azi_rho_state s dirs, calc_pol_theta_state s dirs,
    calc_hue_state s dirs, calc_lightness_state s dirs, ?_⟩
  simp only [get_color]
  rw [calc_lightness_state, calc_hue_state, check_norm_idem]

/-- A nonzero vector normalizes to unit self dot product. -/
lemma dot3_normalize3 {v : V3} (h : dot3 v v ≠ 0) :
    dot3 (normalize3 v) (normalize3 v) = 1 := by
  have hpos : 0 < dot3 v v := lt_of_le_of_ne (dot3_self_nonneg v) (Ne.symm h)
  have hsq : dot3 (normalize3 v) (normalize3 v) =
      ((norm3 v)⁻¹) ^ 2 * dot3 v v := by
    simp only [normalize3, smul3, dot3]
    ring
  rw [hsq, inv_pow, norm3, Real.sq_sqrt hpos.le, inv_mul_cancel₀ h]

/-- The cross product of a vector with itself vanishes. -/
lemma cross3_self (a : V3) : cross3 a a = ((0 : ℝ), (0 : ℝ), (0 : ℝ)) := by
  simp only [cross3, Prod.mk.injEq]
  refine ⟨by ring, by ring, by ring⟩

/-- The zero vector has zero norm. -/
lemma norm3_zero_vec : norm3 ((0 : ℝ), (0 : ℝ), (0 : ℝ)) = 0 := by
  have h : dot3 ((0 : ℝ), (0 : ℝ), (0 : ℝ)) ((0 : ℝ), (0 : ℝ), (0 : ℝ)) = 0 := by
    simp [dot3]
  rw [norm3, h, Real.sqrt_zero]

/-- The azimuth row computation at the barycenter itself: the cross product
degenerates, `dp` keeps its 0 default, and `rho = arccos 0 = pi/2`. -/
lemma sqrt_epsf_nonneg : (0 : ℝ) ≤ sqrt_epsf := Real.sqrt_nonneg _

/-- The azimuth row computation at the barycenter itself: the cross product
degenerates, `dp` keeps its 0 default, and `rho = arccos 0 = pi/2`. -/
lemma azi_rho_row_self (b n1 : V3) : azi_rho_row b n1 b = Real.pi / 2 := by
  simp only [azi_rho_row, cross3_self, norm3_zero_vec]
  rw [if_neg (not_lt.mpr sqrt_epsf_nonneg)]
  rw [if_neg (lt_irrefl (0 : ℝ))]
  exact Real.arccos_zero

/-- A unit barycenter passes `check_norm` unchanged as a batch of one. -/
lemma check_norm_singleton_unit {b : V3} (hb : dot3 b b = 1) :
    check_norm [b] = [b] := by
  simp [check_norm, check_norm_row_unit hb]

/-- `calc_azi_rho` on the barycenter-only batch returns `[pi/2]`: the
degenerate cross product leaves `dp = 0` and `arccos 0 = pi/2`. -/
lemma calc_azi_rho_barycenter (s : Sector) (hn : s.ntriangle ≠ 0)
    (hb : dot3 s.barycenter s.barycenter = 1) :
    (calc_azi_rho s [s.barycenter]).2 = [Real.pi / 2] := by
  simp only [calc_azi_rho, if_pos hn, check_norm_singleton_unit hb]
  simp [azi_rho_row_self]

/-- `calc_pol_theta` on the barycenter-only batch is NaN (`none`): the
polar angle of the barycenter is `arccos 1 = 0`, so the batch maximum is 0
and the rescale divides `0*pi` by `0`. -/
lemma calc_pol_theta_barycenter (s : Sector)
    (hb : dot3 s.barycenter s.barycenter = 1) :
    (calc_pol_theta s [s.barycenter]).2 = none := by
  simp only [calc_pol_theta, check_norm_singleton_unit hb]
  simp [hb, Real.arccos_one, list_max]

/-- `get_color` on the barycenter-only batch has a NaN lightness column. -/
lemma get_color_barycenter (s : Sector)
    (hb : dot3 s.barycenter s.barycenter = 1) :
    (get_color s [s.barycenter]).2 = none := by
  simp only [get_color, calc_lightness]
  have h1 : (calc_hue s [s.barycenter]).1 = [s.barycenter] := by
    rw [calc_hue_state, check_norm_singleton_unit hb]
  rw [h1, calc_pol_theta_barycenter s hb]
  rfl

/-- The `c2v` sector has one triangle. -/
lemma sector_c2v_ntriangle : sector_c2v.ntriangle ≠ 0 := by
  simp [sector_c2v, mkSector]

/-- The `c2v` barycenter is a unit vector: the vertex mean `(1/3, 1/3, 1/3)`
is nonzero and is normalized by the constructor. -/
lemma sector_c2v_barycenter_unit :
    dot3 sector_c2v.barycenter sector_c2v.barycenter = 1 := by
  have hb : sector_c2v.barycenter =
      normalize3 (mean3 [((0 : ℝ), (0 : ℝ), (1 : ℝ)), (1, 0, 0), (0, 1, 0)]) := by
    simp [sector_c2v, mkSector]
  rw [hb]
  apply dot3_normalize3
  have hm : mean3 [((0 : ℝ), (0 : ℝ), (1 : ℝ)), (1, 0, 0), (0, 1, 0)] =
      ((3 : ℝ)⁻¹, (3 : ℝ)⁻¹, (3 : ℝ)⁻¹) := by
    simp only [mean3, List.foldr, smul3, List.length_cons, List.length_nil]
    norm_num
  rw [hm]
  simp only [dot3]
  norm_num

/-- C6 counterexample: for the point group `c2v`, the batch consisting of
the sector's barycenter direction yields a NaN polar angle (`none`, from
the division `0*pi/0` of the batch-relative rescale), not `theta = 0`, and
azimuth `pi/2` (`dp` defaults to 0 and `arccos 0 = pi/2`), not `rho = 0` —
so the claimed `theta = 0`, `L = 1`, `S = 0.75`, `rho = 0` all fail. -/
theorem c6_barycenter_color_claim_false :
    (calc_pol_theta sector_c2v [sector_c2v.barycenter]).2 ≠ some [0] ∧
    (calc_azi_rho sector_c2v [sector_c2v.barycenter]).2 ≠ [0] := by
  constructor
  · rw [calc_pol_theta_barycenter sector_c2v sector_c2v_barycenter_unit]
    simp
  · rw [calc_azi_rho_barycenter sector_c2v sector_c2v_ntriangle
      sector_c2v_barycenter_unit]
    simp [Real.pi_ne_zero]

/-- C6 (corrected): for every sector with a nonzero triangle count and a
unit barycenter (every table entry's barycenter is unit by construction),
`get_color` on the batch consisting of the barycenter direction computes a
NaN polar angle — the batch maximum of `theta` is `arccos 1 = 0` and the
rescale divides `0*pi` by `0` — hence NaN lightness and saturation (the HSL
output is NaN-contaminated, `none`), while the degenerate cross product
gives the azimuth `rho = arccos 0 = pi/2` (hue 1/8 of a turn), not 0. -/
theorem c6_get_color_barycenter (s : Sector) (hn : s.ntriangle ≠ 0)
    (hb : dot3 s.barycenter s.barycenter = 1) :
    (calc_pol_theta s [s.barycenter]).2 = none ∧
    (calc_azi_rho s [s.barycenter]).2 = [Real.pi / 2] ∧
    (get_color s [s.barycenter]).2 = none :=
  ⟨calc_pol_theta_barycenter s hb, calc_azi_rho_barycenter s hn hb,
    get_color_barycenter s hb⟩

/-- C6 witness: the corrected claim instantiated at the `c2v` sector. -/
theorem c6_get_color_barycenter_witness :
    (calc_pol_theta sector_c2v [sector_c2v.barycenter]).2 = none ∧
    (calc_azi_rho sector_c2v [sector_c2v.barycenter]).2 = [Real.pi / 2] ∧
    (get_color sector_c2v [sector_c2v.barycenter]).2 = none :=
  c6_get_color_barycenter sector_c2v sector_c2v_ntriangle
    sector_c2v_barycenter_unit

/-- C7 counterexample: for the 2 x 3 detector with unit pitches and unit
translation, the angular extent computed by the code, `3/2`, differs from
the claimed height component over radius over 2, which is `1`. -/
theorem c7_angle_extent_not_height :
    angle_extent cyl_example ≠ (physical_size cyl_example).1 / radius cyl_example / 2 := by
  have hr : radius cyl_example = 1 := by
    have h : dot3 cyl_example.tvec cyl_example.tvec = 1 := by
      simp [cyl_example, dot3]
    rw [radius, norm3_unit h]
  simp only [angle_extent, physical_size, hr]
  norm_num [cyl_example]

/-- C7 (corrected): for every cylindrical detector the derived radius is
the Euclidean norm of the translation vector, the physical size is
`(rows*row_pitch, cols*col_pitch)`, and the angular extent is the
physical-size WIDTH component — `cols*col_pitch`, the second component —
divided by the radius divided by 2 (not the height component
`rows*row_pitch`). -/
theorem c7_cylindrical_geometry (d : CylindricalDetector) :
    radius d = Real.sqrt (d.tvec.1 ^ 2 + d.tvec.2.1 ^ 2 + d.tvec.2.2 ^ 2) ∧
    physical_size d =
      ((d.rows : ℝ) * d.pixel_size_row, (d.cols : ℝ) * d.pixel_size_col) ∧
    angle_extent d = (d.cols : ℝ) * d.pixel_size_col / (2 * radius d) := by
  refine ⟨?_, rfl, ?_⟩
  · rw [radius, norm3]
    congr 1
    simp only [dot3]
    ring
  · rw [angle_extent, physical_size, div_div, mul_comm (radius d) 2]

/-- Flattening a `flatMap` of array lists pushes the flatten inside. -/
lemma flatten_flatMap {α β : Type} (l : List α) (f : α → List (List β)) :
    (l.flatMap f).flatten = l.flatMap fun a => (f a).flatten := by
  induction l with
  | nil => rfl
  | cons a t ih => simp only [List.flatMap_cons, List.flatten_append, ih]

/-- The concatenation of the arrays appended by `calc_residual` is the
residual described by the specification text. -/
lemma residual_arrays_flatten (inp : ResidualInput) :
    (residual_arrays inp).flatten = residual_spec inp := by
  unfold residual_arrays residual_spec
  rw [flatten_flatMap]
  refine List.flatMap_congr fun src _ => ?_
  rw [flatten_flatMap]
  refine List.flatMap_congr fun ir _ => ?_
  rw [flatten_flatMap]
  refine List.flatMap_congr fun det _ => ?_
  cases hm : ir.2.meas det with
  | none => rfl
  | some tth =>
    simp only
    by_cases he : tth.isEmpty
    · rw [if_pos he, if_pos he]
      rfl
    · rw [if_neg he, if_neg he]
      cases hc : ir.2.corr det with
      | none => simp
      | some corr =>
        simp only [List.flatten_cons, List.flatten_nil, List.append_nil]
        rw [List.zipWith_map_left]

/-- C2 counterexample: for the dataset whose only (source, ring, detector)
combination carries measured data that is present but empty, every
combination is skipped and `calc_residual` raises (`np.hstack` of the empty
list is a `ValueError`, modelled `none`) instead of returning a flat
residual vector — the skipping is not error-free for the whole call. -/
theorem c2_all_empty_dataset_raises :
    calc_residual residual_input_empty = none := rfl

/-- C2 (corrected): provided at least one (X-ray source, ring, detector)
combination has nonempty measured data, `calc_residual` succeeds and
returns exactly the concatenation — iterating X-ray source, then ring
index, then detector — of per-combination entries "measured two-theta in
degrees minus the fitted two-theta parameter of that ring, minus the
configured correction in degrees when present", with absent-or-empty
combinations contributing nothing; when every combination is empty or
absent the final `np.hstack` raises on the empty list. -/
theorem c2_calc_residual_concatenation (inp : ResidualInput)
    (h : (residual_arrays inp).isEmpty = false) :
    calc_residual inp = some (residual_spec inp) := by
  unfold calc_residual
  rw [if_neg (by simp [h]), residual_arrays_flatten]

/-- C2 witness: the corrected claim instantiated at the one-source,
one-ring, one-detector dataset with a single measured value. -/
theorem c2_calc_residual_concatenation_witness :
    calc_residual residual_input_one = some (residual_spec residual_input_one) :=
  c2_calc_residual_concatenation residual_input_one rfl

end Hexrd
